import Mathlib

/-!
Verification development for the presence-determination engine of
`presence-ssh-mqtt/rootfs/usr/bin/unifi_ssh_presence.py`.

The Python source is embedded shallowly: each pure helper becomes a Lean
function on `List Char` / `String` / `Option`, the per-device state mutation
of the main loop becomes an explicit step function on a state structure, and
Python `int` becomes `Int` (or `Nat` where the source value is provably
non-negative).  Python truthiness (`None` and `""` are falsy) is modelled
explicitly at every use site.
-/

/-- Characters that Python's `str.strip()` / `str.isspace()` (and the `\s`
class of the `re` module on `str` patterns) treat as whitespace. -/
def isPySpace (c : Char) : Bool :=
  c = ' ' || c = '\t' || c = '\n' || c = '\r' || c = '\x0b' || c = '\x0c' ||
  c = '\x1c' || c = '\x1d' || c = '\x1e' || c = '\x1f' ||
  c = '\x85' || c = '\xa0' || c = ' ' ||
  (' ' ≤ c && c ≤ ' ') ||
  c = ' ' || c = ' ' || c = ' ' || c = ' ' || c = '　'

/-- Line boundaries recognised by Python's `str.splitlines()` (besides the
combined `"\r\n"` pair, which is handled separately). -/
def isLineBoundary (c : Char) : Bool :=
  c = '\n' || c = '\r' || c = '\x0b' || c = '\x0c' ||
  c = '\x1c' || c = '\x1d' || c = '\x1e' ||
  c = '\x85' || c = ' ' || c = ' '

/-- Worker for `pySplitLines`, processing from the right: a boundary
character opens a new (initially empty) line in front, except that the
`'\r'` of a `"\r\n"` pair adds no second break; a trailing boundary opens
no line because an empty suffix contributes no line at all. -/
def splitLinesCh : List Char → List (List Char)
  | [] => []
  | c :: rest =>
      let r := splitLinesCh rest
      if isLineBoundary c then
        if c = '\r' ∧ rest.head? = some '\n' then r
        else [] :: r
      else
        match r with
        | [] => [[c]]
        | h :: t => (c :: h) :: t

/-- Python's `str.splitlines()`: split at line boundaries (including
`"\r\n"` as one boundary), a trailing boundary does not produce a trailing
empty line. -/
def pySplitLines (s : String) : List String :=
  (splitLinesCh s.toList).map String.mk

/-- Python's `str.strip()` on a character list: drop whitespace from the
front, then from the back. -/
def pyStripList (l : List Char) : List Char :=
  List.rdropWhile isPySpace (l.dropWhile isPySpace)

/-- Python's `str.strip()`. -/
def pyStrip (s : String) : String := String.mk (pyStripList s.toList)

/-- ASCII lower-casing of one character (Python `str.lower()` restricted to
the ASCII range, which is all the call sites compare against). -/
def lowerChar (c : Char) : Char :=
  if 'A' ≤ c ∧ c ≤ 'Z' then Char.ofNat (c.toNat + 32) else c

/-- ASCII upper-casing of one character. -/
def upperChar (c : Char) : Char :=
  if 'a' ≤ c ∧ c ≤ 'z' then Char.ofNat (c.toNat - 32) else c

/-- Python `str.lower()` (ASCII letters). -/
def lowerAscii (s : String) : String := String.mk (s.toList.map lowerChar)

/-- Python `str.upper()` (ASCII letters). -/
def upperAscii (s : String) : String := String.mk (s.toList.map upperChar)

/-- Worker for `reSplitWs`, processing from the right: the last whitespace
character of a maximal run opens a new piece in front; earlier characters of
the same run add nothing. -/
def reSplitWsCh : List Char → List (List Char)
  | [] => [[]]
  | c :: rest =>
      let r := reSplitWsCh rest
      if isPySpace c then
        (match rest with
         | r1 :: _ => if isPySpace r1 then r else [] :: r
         | [] => [] :: r)
      else
        match r with
        | [] => [[c]]
        | h :: t => (c :: h) :: t

/-- Python's `re.split(r"\s+", s)`: split on maximal whitespace runs; a
leading or trailing run yields an empty piece, and the result is never
empty. -/
def reSplitWs (s : String) : List String :=
  (reSplitWsCh s.toList).map String.mk

/-- The character class `[0-9a-f]` of `MAC_RE` under `re.IGNORECASE`:
a hexadecimal digit of either case. -/
def isHexCi (c : Char) : Bool :=
  ('0' ≤ c && c ≤ '9') || ('a' ≤ c && c ≤ 'f') || ('A' ≤ c && c ≤ 'F')

/-- Consume one `[0-9a-f]{2}` pair, returning the remaining characters. -/
def hexPair : List Char → Option (List Char)
  | a :: b :: rest => if isHexCi a && isHexCi b then some rest else none
  | _ => none

/-- Consume `([0-9a-f]{2}:){n}[0-9a-f]{2}` and return the remaining
characters. -/
def macGroups : Nat → List Char → Option (List Char)
  | 0, l => hexPair l
  | n + 1, l =>
      match hexPair l with
      | some (c :: rest) => if c = ':' then macGroups n rest else none
      | _ => none

/-- Embedding of `MAC_RE.match(s)` being truthy, for
`MAC_RE = re.compile(r"^([0-9a-f]{2}:){5}[0-9a-f]{2}$", re.IGNORECASE)`.
`re.match` anchors at the start of the string, and in Python a final `$`
matches at the end of the string or just before one newline at the very end
of the string, so the pattern also accepts a valid MAC followed by a single
trailing `'\n'`. -/
def macReMatch (s : String) : Bool :=
  match macGroups 5 s.toList with
  | some rest => rest = [] || rest = ['\n']
  | none => false

/-- Spec-side shape (from the spec's words): exactly `n` two-hex-digit
octets separated by single colons, hex digits in either case. -/
def colonHexOctets : Nat → List Char → Bool
  | 1, [a, b] => isHexCi a && isHexCi b
  | n + 2, a :: b :: c :: rest =>
      isHexCi a && isHexCi b && (c == ':') && colonHexOctets (n + 1) rest
  | _, _ => false

/-- Spec-side MAC shape: six colon-separated hex octets. -/
def isMacShape (s : String) : Bool := colonHexOctets 6 s.toList

/-- `parse_int_field`: `re.search(r"-?\d+", raw)` finds the leftmost
(optionally negative) digit run; the run is maximal (greedy `\d+`). -/
def digitsVal (l : List Char) : Int :=
  l.foldl (fun acc c => acc * 10 + ((c.toNat : Int) - 48)) 0

/-- Leftmost signed-integer substring of a character list (the semantics of
`re.search(r"-?\d+", _)` followed by `int(...)`): at each position, prefer a
`'-'` directly followed by a digit, else a digit run, else move right. -/
def findInt : List Char → Option Int
  | [] => none
  | '-' :: rest =>
      match rest with
      | d :: _ =>
          if d.isDigit then some (-(digitsVal (rest.takeWhile Char.isDigit)))
          else findInt rest
      | [] => none
  | c :: rest =>
      if c.isDigit then some (digitsVal (c :: rest.takeWhile Char.isDigit))
      else findInt rest

/-- Embedding of `parse_int_field` (the `int(...)` conversion of a matched
`-?\d+` substring cannot fail). -/
def parse_int_field : Option String → Option Int
  | none => none
  | some raw => findInt raw.toList

/-- Index of the LAST element of `header` whose upper-cased form equals
`name` (the Python dict comprehension `{name.upper(): idx for idx, name in
enumerate(header)}` keeps the last index for duplicate column names). -/
def colIndexGo : List String → Nat → String → Option Nat
  | [], _, _ => none
  | h :: t, i, name =>
      match colIndexGo t (i + 1) name with
      | some j => some j
      | none => if upperAscii h = name then some i else none

/-- Lookup in the column-name-to-index map built from the header row. -/
def colIndex (header : List String) (name : String) : Option Nat :=
  colIndexGo header 0 name

/-- Embedding of `get_col`: first name in `names` whose column index exists
and is within the row yields that cell. -/
def get_col (parts : List String) (header : List String) :
    List String → Option String
  | [] => none
  | n :: ns =>
      match colIndex header n with
      | some idx =>
          match parts.get? idx with
          | some v => some v
          | none => get_col parts header ns
      | none => get_col parts header ns

/-- An association-table row record in non-extended mode: `parse_wlanconfig_list`
with `extended=False` only extracts the MAC and the RSSI column. -/
structure WlanRec where
  mac : String
  rssi : Option Int
deriving DecidableEq, Repr

/-- Python dict assignment `d[k] = v` on an insertion-ordered association
list: replace in place if the key exists, else append. -/
def dictUpsert {α : Type} (k : String) (v : α) :
    List (String × α) → List (String × α)
  | [] => [(k, v)]
  | (k2, v2) :: rest =>
      if k2 = k then (k, v) :: rest else (k2, v2) :: dictUpsert k v rest

/-- The stripped non-blank lines of the output:
`[ln.strip() for ln in output.splitlines() if ln.strip()]`. -/
def prepLines (output : String) : List String :=
  ((pySplitLines output).map pyStrip).filter (fun l => l ≠ "")

/-- The header test of `parse_wlanconfig_list`:
`ln.upper().startswith("ADDR")`. -/
def isHeaderLn (ln : String) : Bool :=
  "ADDR".toList.isPrefixOf (upperAscii ln).toList

/-- Embedding of `parse_wlanconfig_list(output, extended=False)`: locate the
first non-blank line that upper-cases to something starting with `"ADDR"`;
if none, or it is the last non-blank line, return the empty dict; otherwise
parse each following line as a row, skipping rows whose first token is not a
valid MAC, and collect `{mac, rssi?}` records keyed by lowercased MAC (the
extended-mode-only columns are not modelled; header location, row skipping
and the RSSI column are identical in both modes). -/
def parse_wlanconfig_list (output : String) : List (String × WlanRec) :=
  let lines := prepLines output
  match lines.findIdx? isHeaderLn with
  | none => []
  | some hi =>
      if hi = lines.length - 1 then []
      else
        let header := reSplitWs (lines.getD hi "")
        (lines.drop (hi + 1)).foldl (fun results ln =>
          let parts := reSplitWs ln
          match parts.head? with
          | none => results
          | some p0 =>
              let mac := lowerAscii p0
              if macReMatch mac then
                dictUpsert mac
                  { mac := mac
                    rssi := parse_int_field (get_col parts header ["RSSI"]) }
                  results
              else results) []

/-- Spec-side header criterion of claim C5 (the claim's words): the line's
first whitespace-delimited token case-insensitively equals `"ADDR"`. -/
def specHeaderTokEq (ln : String) : Bool :=
  lowerAscii (String.mk (ln.toList.takeWhile (fun c => !isPySpace c))) = "addr"

/-- Case-insensitive `"ap_"` test on the first three characters. -/
def apLeadCi : List Char → Bool
  | c1 :: c2 :: c3 :: _ =>
      (c1 = 'a' || c1 = 'A') && (c2 = 'p' || c2 = 'P') && (c3 = '_')
  | _ => false

/-- Embedding of `re.match(r"(?i)^ap_(.+)$", n)`: succeeds when `n` starts
with `"ap_"` (case-insensitive) and the rest has a non-empty maximal
newline-free prefix `body` after which the string either ends or consists of
exactly one final `'\n'` (Python `.` does not match a newline and a final
`$` also matches just before one trailing newline); the returned string is
capture group 1, i.e. `body`. -/
def apNameMatch (n : String) : Option String :=
  match n.toList with
  | c1 :: c2 :: c3 :: rest =>
      if apLeadCi (c1 :: c2 :: c3 :: rest) then
        let body := rest.takeWhile (fun c => c ≠ '\n')
        let tail := rest.dropWhile (fun c => c ≠ '\n')
        if body ≠ [] ∧ (tail = [] ∨ tail = ['\n']) then some (String.mk body)
        else none
      else none
  | _ => none

/-- Embedding of `floor_from_ap_name`. -/
def floor_from_ap_name (name : String) : String :=
  let n := pyStrip name
  if n = "" then "unknown"
  else
    match apNameMatch n with
    | some body => if pyStrip body ≠ "" then pyStrip body else n
    | none => n

/-- Python `a or b` for strings (empty string is falsy). -/
def pyOrS (a b : String) : String := if a = "" then b else a

/-- Embedding of the floor-resolution chain of `main`
(`floor_override_by_ap.get(name) or (a.get("floor") or "").strip() or
floor_from_ap_name(name)`), with `ov` the override-table lookup result and
`ff` the AP's raw `floor` field. -/
def resolveFloor (ov : Option String) (ff : Option String) (name : String) :
    String :=
  pyOrS (ov.getD "") (pyOrS (pyStrip (ff.getD "")) (floor_from_ap_name name))

/-- The first-`ap_`-then-remainder reading of claim C9: case-insensitive
`"ap_"` start, and the remainder of the name. -/
def ciApRemainder (name : String) : Option String :=
  if apLeadCi name.toList then some (String.mk (name.toList.drop 3)) else none

/-- Spec-side floor resolution following the words of claim C9: (1) the
override when configured, (2) the AP's own non-empty floor field, (3) for a
name case-insensitively starting with `"ap_"` followed by a non-blank
remainder, that remainder stripped of surrounding whitespace, (4) otherwise
the raw AP name, (5) `"unknown"` when the AP name is empty. -/
def floorSpecC9 (ov : Option String) (ff : Option String) (name : String) :
    String :=
  match ov with
  | some v => v
  | none =>
      let f := pyStrip (ff.getD "")
      if f ≠ "" then f
      else if name = "" then "unknown"
      else
        match ciApRemainder name with
        | some rest => if pyStrip rest ≠ "" then pyStrip rest else name
        | none => name

/-- Amended spec-side floor resolution: as `floorSpecC9`, but the name is
compared and returned in stripped form, and branch (3) additionally requires
the remainder to contain no newline (forced by the counterexample, since
Python's `.` in the source regex does not cross a newline). -/
def floorSpecC9Amended (ov : Option String) (ff : Option String)
    (name : String) : String :=
  match ov with
  | some v => v
  | none =>
      let f := pyStrip (ff.getD "")
      if f ≠ "" then f
      else
        let n := pyStrip name
        if n = "" then "unknown"
        else
          match ciApRemainder n with
          | some rest =>
              if (!(rest.toList.contains '\n')) ∧ pyStrip rest ≠ "" then
                pyStrip rest
              else n
          | none => n

/-- The fields of a merged sighting record read by `presence_confidence_for_record`
(the function reads exactly `rssi`, `idle_s`, `tx_mbps`, `rx_mbps`, `ssid`
out of the record dict; rates are decimal numbers with at most two decimal
places, modelled as rationals since only order comparisons are performed). -/
structure ConfRec where
  rssi : Option Int
  idle_s : Option Int
  tx_mbps : Option ℚ
  rx_mbps : Option ℚ
  ssid : Option String
deriving DecidableEq

/-- Substring test: `pat in l` for Python strings, on character lists. -/
def listContainsSub (pat : List Char) : List Char → Bool
  | [] => pat.isEmpty
  | c :: rest => pat.isPrefixOf (c :: rest) || listContainsSub pat rest

/-- The SSID-penalty test of `presence_confidence_for_record`:
`any(x in ssid.lower() for x in ("cam", "iot", "guest"))`. -/
def ssidHint (ss : String) : Bool :=
  let low := (lowerAscii ss).toList
  listContainsSub "cam".toList low || listContainsSub "iot".toList low ||
    listContainsSub "guest".toList low

/-- RSSI contribution of `presence_confidence_for_record`. -/
def rssiPts : Option Int → Int
  | some v => if v ≥ 45 then 45 else if v ≥ 35 then 30 else if v ≥ 25 then 15 else 5
  | none => 0

/-- Idle-time contribution of `presence_confidence_for_record`. -/
def idlePts : Option Int → Int
  | some v => if v ≤ 60 then 30 else if v ≤ 300 then 15 else 0
  | none => 0

/-- Link-rate contribution: the `rates` list is built tx-then-rx from the
present values; if non-empty, its max decides between 20 and 10. -/
def ratePts : Option ℚ → Option ℚ → Int
  | none, none => 0
  | some t, none => if t ≥ 50 then 20 else 10
  | none, some x => if x ≥ 50 then 20 else 10
  | some t, some x => if max t x ≥ 50 then 20 else 10

/-- SSID penalty: 5 is subtracted when the SSID is present, non-empty and
its lowercase form contains `"cam"`, `"iot"` or `"guest"`. -/
def ssidPen : Option String → Int
  | some ss => if ss ≠ "" ∧ ssidHint ss then 5 else 0
  | none => 0

/-- Embedding of `presence_confidence_for_record`: the banded sum, clamped
to [0, 100] by the final two `if`s of the source. -/
def presence_confidence_for_record (r : ConfRec) : Int :=
  let score := rssiPts r.rssi + idlePts r.idle_s + ratePts r.tx_mbps r.rx_mbps
    - ssidPen r.ssid
  if score < 0 then 0 else if score > 100 then 100 else score

/-- Spec-side RSSI band points, following the words of claim C4. -/
def rssiSpecPts : Option Int → Int
  | some v =>
      if v ≥ 45 then 45
      else if 35 ≤ v ∧ v ≤ 44 then 30
      else if 25 ≤ v ∧ v ≤ 34 then 15
      else 5
  | none => 0

/-- Spec-side idle band points, following the words of claim C4. -/
def idleSpecPts : Option Int → Int
  | some v => if v ≤ 60 then 30 else if 60 < v ∧ v ≤ 300 then 15 else 0
  | none => 0

/-- Spec-side rate points, following the words of claim C4. -/
def rateSpecPts : Option ℚ → Option ℚ → Int
  | none, none => 0
  | some t, none => if t ≥ 50 then 20 else 10
  | none, some x => if x ≥ 50 then 20 else 10
  | some t, some x => if max t x ≥ 50 then 20 else 10

/-- Spec-side SSID adjustment, following the words of claim C4: minus 5 when
an SSID is present whose lowercase form contains one of the hint words. -/
def ssidSpecPts : Option String → Int
  | some ss => if ssidHint ss then -5 else 0
  | none => 0

/-- Spec-side confidence score, following the words of claim C4: the clamp
to [0,100] of the sum of the band contributions. -/
def confSpecC4 (r : ConfRec) : Int :=
  min 100 (max 0 (rssiSpecPts r.rssi + idleSpecPts r.idle_s
    + rateSpecPts r.tx_mbps r.rx_mbps + ssidSpecPts r.ssid))

/-- A normalized per-cycle sighting record (`rec2` in `main`): the fields
attached by the normalizer for one (AP, interface, MAC) sighting.  The
extended-mode-only columns are independent payload carried unchanged by
`best_record`, which reads only `rssi` and `idle_s` and returns one of its
two argument dicts whole. -/
structure Rec where
  mac : String
  ap_name : String
  ap_host : String
  floor : String
  iface : String
  band : String
  rssi : Option Int
  idle_s : Option Int
  ip : Option String
deriving DecidableEq, Repr

/-- The idle-time tie-break half of `best_record`. -/
def best_by_idle (a b : Rec) : Rec :=
  match a.idle_s, b.idle_s with
  | none, some _ => b
  | some _, none => a
  | some ai, some bi => if ai ≠ bi then (if ai ≤ bi then a else b) else a
  | none, none => a

/-- Embedding of `best_record`. -/
def best_record (a b : Rec) : Rec :=
  match a.rssi, b.rssi with
  | none, some _ => b
  | some _, none => a
  | some ar, some br =>
      if ar ≠ br then (if ar ≥ br then a else b) else best_by_idle a b
  | none, none => best_by_idle a b

/-- Spec-side idle comparison following the words of claim C2. -/
def bestIdleSpec (a b : Rec) : Rec :=
  match a.idle_s, b.idle_s with
  | some _, none => a
  | none, some _ => b
  | some x, some y => if x ≠ y then (if x < y then a else b) else a
  | none, none => a

/-- Spec-side `best` following the words of claim C2: the side with an RSSI
when exactly one has one; the strictly higher RSSI when both differ; else
the idle comparison; `a` on a full tie. -/
def bestRecordSpec (a b : Rec) : Rec :=
  match a.rssi, b.rssi with
  | some _, none => a
  | none, some _ => b
  | some x, some y => if x ≠ y then (if x > y then a else b) else bestIdleSpec a b
  | none, none => bestIdleSpec a b

/-- The running reduction of `main` over the sightings of one MAC in one
cycle (`d[mac] = best_record(d.get(mac, rec), rec)` for each sighting in
order): the first sighting is reduced with itself, later ones with the
accumulator. -/
def mergeSightings (first : Rec) (rest : List Rec) : Rec :=
  rest.foldl best_record (best_record first first)

/-- A learning-store entry as read by `trim_seen`: the function sorts by the
integer `last_seen_ts` field and re-keys by `mac.lower()`; every entry the
program puts in the store carries both fields (`new_item` in `main`), and
entries are carried whole.  The remaining payload fields are irrelevant to
`trim_seen` and omitted. -/
structure SeenEntry where
  mac : String
  last_seen_ts : Int
deriving DecidableEq, Repr

/-- Stable insertion into a list sorted by descending `last_seen_ts`
(elements with equal timestamps keep their original relative order, as
Python's stable `list.sort(..., reverse=True)` does). -/
def insertByTsDesc (e : SeenEntry) : List SeenEntry → List SeenEntry
  | [] => [e]
  | x :: xs =>
      if x.last_seen_ts ≤ e.last_seen_ts then e :: x :: xs
      else x :: insertByTsDesc e xs

/-- Stable sort by descending `last_seen_ts`, the semantics of
`items.sort(key=lambda x: int(x.get("last_seen_ts") or 0), reverse=True)`
for entries carrying an integer timestamp. -/
def sortByTsDesc : List SeenEntry → List SeenEntry
  | [] => []
  | x :: xs => insertByTsDesc x (sortByTsDesc xs)

/-- Embedding of `trim_seen`: for a non-positive maximum return the empty
dict; otherwise sort the values by descending timestamp, keep the prefix of
length `max_entries`, and rebuild a dict keyed by `item["mac"].lower()`
(the model's entries always carry a `mac`, matching every entry the program
stores). -/
def trim_seen (seen : List SeenEntry) (max_entries : Int) :
    List (String × SeenEntry) :=
  if max_entries ≤ 0 then []
  else
    ((sortByTsDesc seen).take max_entries.toNat).foldl
      (fun acc it => dictUpsert (lowerAscii it.mac) it acc) []

/-- Per-device persistent state of the main loop (the per-MAC entries of
`prev_home`, `prev_ap`, `prev_ap_host`, `prev_floor`, `prev_floor_attr`,
`prev_ip`, `last_floor_change`, `roam_count`, `misses`, `last_seen`,
`last_seen_iso`). -/
structure DevState where
  prev_home : Option Bool
  prev_ap : Option String
  prev_ap_host : Option String
  prev_floor : Option String
  prev_floor_attr : Option String
  prev_ip : Option String
  last_floor_change : Option String
  roam_count : Nat
  misses : Nat
  last_seen : Int
  last_seen_iso : String
deriving DecidableEq, Repr

/-- The initial per-device state set up before the loop: every `prev_*`
entry is `None`, counters are 0, `last_seen_iso` is `""`. -/
def initDevState : DevState :=
  { prev_home := none, prev_ap := none, prev_ap_host := none,
    prev_floor := none, prev_floor_attr := none, prev_ip := none,
    last_floor_change := none, roam_count := 0, misses := 0,
    last_seen := 0, last_seen_iso := "" }

/-- The edge-triggered one-line notices printed by the tracked-device loop. -/
inductive Notice where
  | enteredHome
  | movedAp
  | changedFloor
  | changedIp
  | wentAway
deriving DecidableEq, Repr

/-- The published attributes payload for one tracked device (the `rec`
dict in the home branch / `away_attrs` in the away branch of `main`). -/
structure Attrs where
  ap_name : Option String
  ap_host : Option String
  floor : Option String
  iface : Option String
  band : Option String
  rssi : Option Int
  ip : Option String
  misses : Nat
  last_seen_ts : Int
  last_seen_iso : String
  prev_floor : Option String
  last_floor_change : Option String
  roam_count : Nat
deriving DecidableEq, Repr

/-- One cycle's emission for one tracked device: the retained state topic
value (`home` / `not_home`), the attributes payload, and the at-most-one
edge-triggered notice. -/
structure Emission where
  is_home : Bool
  attrs : Attrs
  notice : Option Notice
deriving DecidableEq, Repr

/-- The guarded change test `prev_x.get(mac) and x_now and x_now !=
prev_x[mac]` used by the roam-count and floor-change updates (Python
truthiness: `None` and `""` are falsy). -/
def truthyChanged (prev : Option String) (now : String) : Bool :=
  match prev with
  | some p => decide (p ≠ "") && decide (now ≠ "") && decide (now ≠ p)
  | none => false

/-- The ip-changed notice condition `ip_now and ip_now != prev_ip[mac]`. -/
def ipChanged (ipNow prevIp : Option String) : Bool :=
  match ipNow with
  | some i => decide (i ≠ "") && decide (some i ≠ prevIp)
  | none => false

/-- One poll cycle of `main` for one tracked device.  `obs` is the device's
entry in the cycle's globally merged tracked-record set
(`seen_global_tracked.get(mac)`), `now_ts`/`now_iso` the cycle's clock
reading.  Mirrors, in order: the misses/last_seen update loop, then the
publish branch (home / newly-or-still away / debounce window), including the
roam-count and floor-change updates and the notice priority chain. -/
def stepDevice (away_after : Int) (now_ts : Int) (now_iso : String)
    (st : DevState) (obs : Option Rec) : DevState × Option Emission :=
  match obs with
  | some r =>
      let roam2 := if truthyChanged st.prev_ap r.ap_name then st.roam_count + 1
        else st.roam_count
      let floorChg := truthyChanged st.prev_floor r.floor
      let pfa2 := if floorChg then st.prev_floor else st.prev_floor_attr
      let lfc2 := if floorChg then some now_iso else st.last_floor_change
      let attrs : Attrs :=
        { ap_name := some r.ap_name, ap_host := some r.ap_host,
          floor := some r.floor, iface := some r.iface, band := some r.band,
          rssi := r.rssi, ip := r.ip, misses := 0, last_seen_ts := now_ts,
          last_seen_iso := now_iso, prev_floor := pfa2,
          last_floor_change := lfc2, roam_count := roam2 }
      let notice : Option Notice :=
        if st.prev_home ≠ some true then some .enteredHome
        else if some r.ap_name ≠ st.prev_ap then some .movedAp
        else if r.floor ≠ "" ∧ some r.floor ≠ st.prev_floor then
          some .changedFloor
        else if ipChanged r.ip st.prev_ip then some .changedIp
        else none
      let st2 : DevState :=
        { prev_home := some true, prev_ap := some r.ap_name,
          prev_ap_host := some r.ap_host, prev_floor := some r.floor,
          prev_floor_attr := pfa2, prev_ip := r.ip,
          last_floor_change := lfc2, roam_count := roam2, misses := 0,
          last_seen := now_ts, last_seen_iso := now_iso }
      (st2, some { is_home := true, attrs := attrs, notice := notice })
  | none =>
      let m2 := st.misses + 1
      if (m2 : Int) ≥ away_after then
        let attrs : Attrs :=
          { ap_name := st.prev_ap, ap_host := st.prev_ap_host,
            floor := st.prev_floor, iface := none, band := none,
            rssi := none, ip := none, misses := m2,
            last_seen_ts := st.last_seen, last_seen_iso := st.last_seen_iso,
            prev_floor := st.prev_floor_attr,
            last_floor_change := st.last_floor_change,
            roam_count := st.roam_count }
        let notice : Option Notice :=
          if st.prev_home ≠ some false then some .wentAway else none
        ({ st with misses := m2, prev_home := some false, prev_ip := none },
          some { is_home := false, attrs := attrs, notice := notice })
      else ({ st with misses := m2 }, none)

/-- Run `stepDevice` over a list of cycles, collecting the per-cycle
emissions. -/
def runDevice (away_after : Int) :
    DevState → List (Int × String × Option Rec) → DevState × List (Option Emission)
  | st, [] => (st, [])
  | st, (ts, iso, obs) :: rest =>
      let p := stepDevice away_after ts iso st obs
      let q := runDevice away_after p.1 rest
      (q.1, p.2 :: q.2)

/-- Projection of an emission to the facets claim C1 talks about: the
published state, the published `misses` attribute, and the notice. -/
def projEm : Option Emission → Option (Bool × Nat × Option Notice)
  | none => none
  | some e => some (e.is_home, e.attrs.misses, e.notice)

/-! ## Helper lemmas -/

/-- `best_record` always returns one of its two arguments. -/
theorem best_record_arg (a b : Rec) : best_record a b = a ∨ best_record a b = b := by
  unfold best_record best_by_idle
  cases ha : a.rssi <;> cases hb : b.rssi <;>
    cases hi : a.idle_s <;> cases hj : b.idle_s <;>
    simp only [ha, hb, hi, hj] <;> (try split_ifs) <;> tauto

/-- A running `best_record` reduction stays within the accumulator and the
reduced list. -/
theorem foldl_best_mem (l : List Rec) : ∀ acc : Rec,
    l.foldl best_record acc ∈ acc :: l := by
  induction l with
  | nil => intro acc; simp
  | cons x xs ih =>
      intro acc
      have h := ih (best_record acc x)
      rcases best_record_arg acc x with h2 | h2 <;>
        simp only [List.foldl_cons] <;> rw [h2] at h ⊢ <;>
        rcases List.mem_cons.mp h with h3 | h3 <;> simp [h3]

/-! ## C10 -/

/-- C10: `best_record(a,b)` is exactly one of its two arguments, unchanged,
and consequently the running reduction used by `main` to merge the sightings
of one MAC (across interfaces and across APs) always yields one of the
original sighting records whole — merged records are never field-wise
mixtures. -/
theorem best_record_no_mixture :
    (∀ a b : Rec, best_record a b = a ∨ best_record a b = b)
    ∧ (∀ (r : Rec) (rs : List Rec), mergeSightings r rs ∈ r :: rs) := by
  refine ⟨best_record_arg, fun r rs => ?_⟩
  have hrr : best_record r r = r := by
    rcases best_record_arg r r with h | h <;> exact h
  have h := foldl_best_mem rs (best_record r r)
  rw [hrr] at h
  exact (by rw [mergeSightings, hrr] : mergeSightings r rs = rs.foldl best_record r) ▸ h

/-! ## C2 -/

/-- C2: `best_record` implements exactly the spec's decision list — the side
with an RSSI when exactly one has one, the higher RSSI when both have one
and they differ, else the side with an idle time when exactly one has one,
the lower idle time when both differ, and `a` on a full tie; and the
function is not symmetric: there are records with
`best_record a b ≠ best_record b a`. -/
theorem best_record_matches_spec :
    (∀ a b : Rec, best_record a b = bestRecordSpec a b)
    ∧ (∃ a b : Rec, best_record a b ≠ best_record b a) := by
  constructor
  · intro a b
    unfold best_record bestRecordSpec best_by_idle bestIdleSpec
    cases ha : a.rssi <;> cases hb : b.rssi <;>
      cases hi : a.idle_s <;> cases hj : b.idle_s <;>
      simp only [ha, hb, hi, hj] <;> (try split_ifs) <;>
      first | rfl | (exfalso; omega) | tauto
  · refine ⟨{ mac := "aa", ap_name := "x", ap_host := "h", floor := "f",
              iface := "i", band := "2.4", rssi := none, idle_s := none,
              ip := none },
            { mac := "bb", ap_name := "x", ap_host := "h", floor := "f",
              iface := "i", band := "2.4", rssi := none, idle_s := none,
              ip := none }, by decide⟩

/-! ## C3 -/

/-- Iterating unobserved cycles adds exactly one miss per cycle. -/
theorem misses_replicate (away_after : Int) : ∀ (n : Nat) (st : DevState),
    ((runDevice away_after st
        (List.replicate n ((0 : Int), "", (none : Option Rec)))).1).misses
      = st.misses + n := by
  intro n
  induction n with
  | zero => intro st; simp [runDevice]
  | succ n ih =>
      intro st
      rw [List.replicate_succ]
      show ((runDevice away_after
        ((stepDevice away_after 0 "" st none).1) _).1).misses = _
      rw [ih]
      have : ((stepDevice away_after 0 "" st none).1).misses = st.misses + 1 := by
        simp only [stepDevice]
        split <;> rfl
      rw [this]
      omega

/-- C3: in every cycle the miss counter becomes exactly 0 when the device's
MAC is in the cycle's globally-merged tracked-record set (`obs = some _`)
and exactly `misses + 1` otherwise — `stepDevice` is the only operation of
the loop that touches it, so nothing else resets it; and no upper bound is
applied: `n` consecutive unobserved cycles from the initial state leave the
counter at exactly `n`, for every `n`. -/
theorem misses_update_characterization :
    (∀ (away_after now_ts : Int) (now_iso : String) (st : DevState)
        (obs : Option Rec),
        ((stepDevice away_after now_ts now_iso st obs).1).misses
          = match obs with | some _ => 0 | none => st.misses + 1)
    ∧ (∀ n : Nat, ((runDevice 3 initDevState
        (List.replicate n ((0 : Int), "", (none : Option Rec)))).1).misses
          = n) := by
  constructor
  · intro away_after now_ts now_iso st obs
    cases obs with
    | some r => simp [stepDevice]
    | none =>
        simp only [stepDevice]
        split <;> rfl
  · intro n
    rw [misses_replicate]
    simp [initDevState]

/-! ## C6 -/

/-- Consuming all `n+1` octets with nothing left is exactly the spec shape
with `n+1` octets. -/
theorem macGroups_empty_iff : ∀ (n : Nat) (l : List Char),
    macGroups n l = some [] ↔ colonHexOctets (n + 1) l = true := by
  intro n
  induction n with
  | zero =>
      intro l
      rcases l with _ | ⟨a, _ | ⟨b, rest⟩⟩
      · simp [macGroups, hexPair, colonHexOctets]
      · simp [macGroups, hexPair, colonHexOctets]
      · rcases rest with _ | ⟨c, r⟩
        · show (if isHexCi a && isHexCi b then some ([] : List Char) else none)
              = some [] ↔ (isHexCi a && isHexCi b) = true
          cases hab : (isHexCi a && isHexCi b) <;> simp [hab]
        · show (if isHexCi a && isHexCi b then some (c :: r) else none)
              = some [] ↔ false = true
          cases hab : (isHexCi a && isHexCi b) <;> simp [hab]
  | succ n ih =>
      intro l
      rcases l with _ | ⟨a, _ | ⟨b, rest⟩⟩
      · show (none : Option (List Char)) = some [] ↔ false = true
        simp
      · show (none : Option (List Char)) = some [] ↔ false = true
        simp
      · rcases rest with _ | ⟨c, r⟩
        · show (match (if isHexCi a && isHexCi b then some ([] : List Char)
                  else none) with
                | some (c :: r) => if c = ':' then macGroups n r else none
                | _ => none) = some [] ↔ false = true
          cases hab : (isHexCi a && isHexCi b) <;> simp [hab]
        · show (match (if isHexCi a && isHexCi b then some (c :: r)
                  else none) with
                | some (c :: r) => if c = ':' then macGroups n r else none
                | _ => none) = some []
              ↔ (isHexCi a && isHexCi b && (c == ':')
                  && colonHexOctets (n + 1) r) = true
          cases hab : (isHexCi a && isHexCi b) <;> by_cases hc : c = ':' <;>
            simp [hab, hc, ih r]

/-- Definitional shapes of `colonHexOctets`, convenient for rewriting. -/
theorem cho_pair (a b : Char) :
    colonHexOctets 1 [a, b] = (isHexCi a && isHexCi b) := rfl

theorem cho_1_nil : colonHexOctets 1 [] = false := rfl

theorem cho_1_one (a : Char) : colonHexOctets 1 [a] = false := rfl

theorem cho_1_big (a b c : Char) (r : List Char) :
    colonHexOctets 1 (a :: b :: c :: r) = false := rfl

theorem cho_nil (n : Nat) : colonHexOctets (n + 2) [] = false := rfl

theorem cho_one (n : Nat) (a : Char) : colonHexOctets (n + 2) [a] = false := rfl

theorem cho_two (n : Nat) (a b : Char) :
    colonHexOctets (n + 2) [a, b] = false := rfl

theorem cho_succ (n : Nat) (a b c : Char) (r : List Char) :
    colonHexOctets (n + 2) (a :: b :: c :: r)
      = (isHexCi a && isHexCi b && (c == ':') && colonHexOctets (n + 1) r) := rfl

/-- Consuming all `n+1` octets with exactly one `'\n'` left means the input
is a valid `n+1`-octet shape followed by a single newline. -/
theorem macGroups_newline_iff : ∀ (n : Nat) (l : List Char),
    macGroups n l = some ['\n'] ↔
      ∃ pre, l = pre ++ ['\n'] ∧ colonHexOctets (n + 1) pre = true := by
  intro n
  induction n with
  | zero =>
      intro l
      rcases l with _ | ⟨a, _ | ⟨b, rest⟩⟩
      · constructor
        · intro h; exact absurd h (by simp [macGroups, hexPair])
        · rintro ⟨pre, hpre, _⟩
          exact absurd hpre (by simp)
      · constructor
        · intro h; exact absurd h (by simp [macGroups, hexPair])
        · rintro ⟨pre, hpre, hch⟩
          rcases pre with _ | ⟨x, p⟩
          · rw [cho_1_nil] at hch; exact absurd hch (by simp)
          · refine absurd hpre ?_
            simp only [List.cons_append, List.cons.injEq]
            rintro ⟨_, hnil⟩
            exact absurd hnil.symm (List.append_ne_nil_of_right_ne_nil p (by simp))
      · constructor
        · intro h
          have h2 : (if isHexCi a && isHexCi b then some rest else none)
              = some ['\n'] := h
          cases hab : (isHexCi a && isHexCi b) <;> rw [hab] at h2 <;>
            simp at h2
          refine ⟨[a, b], by simp [h2], ?_⟩
          rw [cho_pair]; exact hab
        · rintro ⟨pre, hpre, hch⟩
          rcases pre with _ | ⟨x, _ | ⟨y, _ | ⟨z, p⟩⟩⟩
          · rw [cho_1_nil] at hch; exact absurd hch (by simp)
          · rw [cho_1_one] at hch; exact absurd hch (by simp)
          · simp only [List.cons_append, List.nil_append,
              List.cons.injEq] at hpre
            obtain ⟨h1, h2, h3⟩ := hpre
            subst h1; subst h2; subst h3
            show (if isHexCi a && isHexCi b then some ['\n'] else none)
                = some ['\n']
            rw [cho_pair] at hch
            rw [hch]; rfl
          · rw [cho_1_big] at hch; exact absurd hch (by simp)
  | succ n ih =>
      intro l
      rcases l with _ | ⟨a, _ | ⟨b, rest⟩⟩
      · constructor
        · intro h
          exact absurd h (by show (none : Option (List Char)) = _ → False; simp)
        · rintro ⟨pre, hpre, _⟩
          exact absurd hpre (by simp)
      · constructor
        · intro h
          exact absurd h (by show (none : Option (List Char)) = _ → False; simp)
        · rintro ⟨pre, hpre, hch⟩
          rcases pre with _ | ⟨x, p⟩
          · simp only [List.nil_append, List.cons.injEq] at hpre
            obtain ⟨h1, h2⟩ := hpre
            rw [cho_nil] at hch; exact absurd hch (by simp)
          · refine absurd hpre ?_
            simp only [List.cons_append, List.cons.injEq]
            rintro ⟨_, hnil⟩
            exact absurd hnil.symm (List.append_ne_nil_of_right_ne_nil p (by simp))
      · rcases rest with _ | ⟨c, r⟩
        · constructor
          · intro h
            have h2 : (match (if isHexCi a && isHexCi b
                    then some ([] : List Char) else none) with
                  | some (c :: r) => if c = ':' then macGroups n r else none
                  | _ => none) = some ['\n'] := h
            cases hab : (isHexCi a && isHexCi b) <;> rw [hab] at h2 <;>
              simp at h2
          · rintro ⟨pre, hpre, hch⟩
            rcases pre with _ | ⟨x, _ | ⟨y, p⟩⟩
            · rw [cho_nil] at hch; exact absurd hch (by simp)
            · rw [cho_one] at hch; exact absurd hch (by simp)
            · refine absurd hpre ?_
              simp only [List.cons_append, List.cons.injEq]
              rintro ⟨_, _, hnil⟩
              exact absurd hnil.symm (List.append_ne_nil_of_right_ne_nil p (by simp))
        · constructor
          · intro h
            have h2 : (match (if isHexCi a && isHexCi b
                    then some (c :: r) else none) with
                  | some (c :: r) => if c = ':' then macGroups n r else none
                  | _ => none) = some ['\n'] := h
            cases hab : (isHexCi a && isHexCi b) <;> rw [hab] at h2
            · exact absurd h2 (by simp)
            · have h3 : (if c = ':' then macGroups n r else none)
                  = some ['\n'] := h2
              by_cases hc : c = ':'
              · rw [if_pos hc] at h3
                obtain ⟨pre, hpre, hch⟩ := (ih r).mp h3
                subst hc
                refine ⟨a :: b :: ':' :: pre, by simp [hpre], ?_⟩
                rw [cho_succ]
                simp [hab, hch]
              · rw [if_neg hc] at h3; exact absurd h3 (by simp)
          · rintro ⟨pre, hpre, hch⟩
            rcases pre with _ | ⟨x, _ | ⟨y, _ | ⟨z, p⟩⟩⟩
            · rw [cho_nil] at hch; exact absurd hch (by simp)
            · rw [cho_one] at hch; exact absurd hch (by simp)
            · rw [cho_two] at hch; exact absurd hch (by simp)
            · rw [cho_succ] at hch
              simp only [Bool.and_eq_true, beq_iff_eq] at hch
              obtain ⟨⟨⟨hx, hy⟩, hz⟩, hp⟩ := hch
              simp only [List.cons_append, List.cons.injEq] at hpre
              obtain ⟨h1, h2, h3, h4⟩ := hpre
              subst h1; subst h2; subst h3; subst hz
              show (match (if isHexCi a && isHexCi b
                      then some (':' :: r) else none) with
                    | some (c :: r2) => if c = ':' then macGroups n r2 else none
                    | _ => none) = some ['\n']
              rw [show (isHexCi a && isHexCi b) = true by simp [hx, hy]]
              show (if ':' = ':' then macGroups n r else none) = some ['\n']
              rw [if_pos rfl]
              exact (ih r).mpr ⟨p, h4, hp⟩

/-- C6 (amended): MAC validation accepts exactly the strings of six
two-hex-digit octets separated by colons (hex digits in either case),
plus — because a final `$` in a Python pattern also matches just before one
trailing newline — any such string followed by a single trailing `'\n'`;
every other string is rejected. -/
theorem mac_validation_characterization (s : String) :
    macReMatch s = true ↔
      (isMacShape s = true
        ∨ ∃ t : List Char, s.toList = t ++ ['\n']
            ∧ colonHexOctets 6 t = true) := by
  have hL1 : macGroups 5 s.toList = some [] ↔ colonHexOctets 6 s.toList = true :=
    macGroups_empty_iff 5 s.toList
  have hL2 : macGroups 5 s.toList = some ['\n'] ↔
      ∃ pre, s.toList = pre ++ ['\n'] ∧ colonHexOctets 6 pre = true :=
    macGroups_newline_iff 5 s.toList
  unfold macReMatch isMacShape
  rcases hm : macGroups 5 s.toList with _ | rest
  · rw [hm] at hL1 hL2
    constructor
    · intro h; exact absurd h (by simp)
    · rintro (h | ⟨t, ht, hch⟩)
      · exact absurd (hL1.mpr h) (by simp)
      · exact absurd (hL2.mpr ⟨t, ht, hch⟩) (by simp)
  · rw [hm] at hL1 hL2
    constructor
    · intro h
      simp only [Bool.or_eq_true, decide_eq_true_eq] at h
      rcases h with h | h
      · exact Or.inl (hL1.mp (by rw [h]))
      · exact Or.inr (hL2.mp (by rw [h]))
    · rintro (h | ⟨t, ht, hch⟩)
      · have := hL1.mpr h
        simp only [Option.some.injEq] at this
        simp [this]
      · have := hL2.mpr ⟨t, ht, hch⟩
        simp only [Option.some.injEq] at this
        simp [this]

/-- C6 (counterexample to the claim as stated): the claim says every string
that is not exactly six colon-separated hex octets is rejected, but the
valid MAC followed by a single trailing newline is accepted by
`MAC_RE.match` while not being of the claimed shape. -/
theorem mac_validation_counterexample :
    macReMatch "aa:bb:cc:dd:ee:ff\n" = true
      ∧ isMacShape "aa:bb:cc:dd:ee:ff\n" = false := by
  constructor <;> rfl

/-! ## C5 -/

/-- C5 (amended): the parser treats as the header the first non-blank line
which, upper-cased, starts with `"ADDR"` (equivalently: whose first
whitespace-delimited token has `"ADDR"` as a case-insensitive prefix, rather
than being exactly equal to `"ADDR"` as the claim stated); if no such line
exists, or that line is the last non-blank line, the result is empty — and
the parser is a total function, so no error is ever raised. -/
theorem parse_header_empty_result (output : String)
    (h : (∀ ln ∈ prepLines output, isHeaderLn ln = false)
        ∨ (prepLines output).findIdx? isHeaderLn
            = some ((prepLines output).length - 1)) :
    parse_wlanconfig_list output = [] := by
  simp only [parse_wlanconfig_list]
  rcases hf : (prepLines output).findIdx? isHeaderLn with _ | hi
  · rfl
  · rcases h with h | h
    · rw [List.findIdx?_eq_none_iff.mpr h] at hf
      exact absurd hf (by simp)
    · rw [hf] at h
      simp only [Option.some.injEq] at h
      subst h
      simp

/-- Witness for C5: a text with no `ADDR`-starting line parses to the empty
result. -/
theorem parse_header_empty_result_witness :
    parse_wlanconfig_list "foo bar\nbaz" = [] :=
  parse_header_empty_result "foo bar\nbaz" (Or.inl (by decide))

/-- C5 (counterexample to the claim as stated): in this input no line's
first whitespace-delimited token case-insensitively equals `"ADDR"`, yet the
parser does not return an empty result — the source tests
`ln.upper().startswith("ADDR")`, so the line `"ADDRFOO RSSI"` is accepted as
the header. -/
theorem parse_header_token_counterexample :
    (∀ ln ∈ prepLines "ADDRFOO RSSI\naa:bb:cc:dd:ee:ff 42",
        specHeaderTokEq ln = false)
    ∧ parse_wlanconfig_list "ADDRFOO RSSI\naa:bb:cc:dd:ee:ff 42" ≠ [] := by
  constructor
  · decide
  · decide

/-! ## C9 -/

/-- A stripped string has no trailing Python whitespace. -/
theorem pyStrip_no_trailing (s : String) (c : Char)
    (h : (pyStrip s).toList.getLast? = some c) : isPySpace c = false := by
  have hne : pyStripList s.toList ≠ [] := by
    intro hnil
    have h0 : (pyStrip s).toList = [] := hnil
    rw [h0] at h; exact absurd h (by simp)
  have h2 : ¬ isPySpace ((pyStripList s.toList).getLast hne) = true :=
    List.rdropWhile_last_not isPySpace (s.toList.dropWhile isPySpace) hne
  have h3 : (pyStripList s.toList).getLast? = some c := h
  rw [List.getLast?_eq_getLast _ hne] at h3
  simp only [Option.some.injEq] at h3
  rw [h3] at h2
  simpa using h2

/-- Characterisation of the `(?i)^ap_(.+)$` match on a string with no
trailing whitespace: it succeeds exactly when the name starts with a
case-insensitive `"ap_"` and the remainder is non-empty and newline-free,
and then group 1 is the whole remainder. -/
theorem apNameMatch_eq (n : String)
    (hnt : ∀ c, n.toList.getLast? = some c → isPySpace c = false) :
    apNameMatch n =
      (match ciApRemainder n with
       | some rest =>
           if rest.toList.contains '\n' = false ∧ rest.toList ≠ [] then
             some rest
           else none
       | none => none) := by
  unfold apNameMatch ciApRemainder
  rcases hcs : n.toList with _ | ⟨c1, _ | ⟨c2, _ | ⟨c3, rest⟩⟩⟩
  · simp [apLeadCi]
  · simp [apLeadCi]
  · simp [apLeadCi]
  · cases hlead : apLeadCi (c1 :: c2 :: c3 :: rest)
    · simp [hlead]
    · simp only [hlead, if_true]
      have hdrop : (c1 :: c2 :: c3 :: rest).drop 3 = rest := rfl
      rw [hdrop]
      have hmk : (String.mk rest).toList = rest := rfl
      cases hnl : rest.contains '\n'
      · have hnomem : '\n' ∉ rest := by
          intro hmem
          have hc2 : rest.contains '\n' = true := List.elem_iff.mpr hmem
          rw [hnl] at hc2
          exact absurd hc2 (by simp)
        have htail : rest.dropWhile (fun c => decide (c ≠ '\n')) = [] := by
          rw [List.dropWhile_eq_nil_iff]
          intro x hx
          simp only [decide_eq_true_eq]
          intro hx2; rw [hx2] at hx; exact hnomem hx
        have hbody : rest.takeWhile (fun c => decide (c ≠ '\n')) = rest := by
          have hsplit := List.takeWhile_append_dropWhile
            (fun c => decide (c ≠ '\n')) rest
          rw [htail] at hsplit
          simpa using hsplit
        rw [htail, hbody, hmk]
        rcases rest with _ | ⟨d, ds⟩
        · simp
        · rw [if_pos ⟨by simp, Or.inl rfl⟩,
            if_pos ⟨by rw [hnl], by simp⟩]
      · have htailne : rest.dropWhile (fun c => decide (c ≠ '\n')) ≠ [] := by
          intro hnil
          have hall := List.dropWhile_eq_nil_iff.mp hnil
          have hmem : '\n' ∈ rest := List.elem_iff.mp hnl
          have := hall '\n' hmem
          simp at this
        have htailnenl :
            rest.dropWhile (fun c => decide (c ≠ '\n')) ≠ ['\n'] := by
          intro heq
          have hsplit := List.takeWhile_append_dropWhile
            (fun c => decide (c ≠ '\n')) rest
          rw [heq] at hsplit
          have hlast : rest.getLast? = some '\n' := by
            rw [← hsplit]
            exact List.getLast?_concat _
          have hrne : rest ≠ [] := by
            intro hr; rw [hr] at heq; exact absurd heq (by simp)
          have hlast2 : n.toList.getLast? = some '\n' := by
            rw [hcs]
            show (c1 :: c2 :: c3 :: rest).getLast? = some '\n'
            have he : (c1 :: c2 :: c3 :: rest) = [c1, c2, c3] ++ rest := rfl
            rw [he, List.getLast?_append_of_ne_nil _ hrne]
            exact hlast
          have := hnt '\n' hlast2
          exact absurd this (by simp [isPySpace])
        rw [if_neg (by
            rintro ⟨_, h2 | h2⟩
            · exact htailne h2
            · exact htailnenl h2),
          if_neg (by
            rintro ⟨hcontr, _⟩
            rw [hmk, hnl] at hcontr
            exact absurd hcontr (by simp))]

/-- The `floor_from_ap_name` derivation, characterised as the amended claim
words state it: on the stripped name, a case-insensitive `ap_` start with a
newline-free non-blank remainder yields the stripped remainder, else the
stripped name (or `"unknown"` when it is empty). -/
theorem floor_from_ap_name_eq (name : String) :
    floor_from_ap_name name =
      (if pyStrip name = "" then "unknown"
       else
         match ciApRemainder (pyStrip name) with
         | some rest =>
             if (!(rest.toList.contains '\n')) ∧ pyStrip rest ≠ "" then
               pyStrip rest
             else pyStrip name
         | none => pyStrip name) := by
  unfold floor_from_ap_name
  by_cases hn : pyStrip name = ""
  · simp [hn]
  · rw [if_neg hn, if_neg hn]
    rw [apNameMatch_eq (pyStrip name)
      (fun c hc => pyStrip_no_trailing name c hc)]
    rcases hap : ciApRemainder (pyStrip name) with _ | rest
    · rfl
    · show (match (if rest.toList.contains '\n' = false ∧ rest.toList ≠ []
            then some rest else none) with
          | some body =>
              if pyStrip body ≠ "" then pyStrip body else pyStrip name
          | none => pyStrip name)
        = (if (!(rest.toList.contains '\n')) ∧ pyStrip rest ≠ ""
            then pyStrip rest else pyStrip name)
      by_cases hcond : rest.toList.contains '\n' = false ∧ rest.toList ≠ []
      · rw [if_pos hcond]
        show (if pyStrip rest ≠ "" then pyStrip rest else pyStrip name) = _
        by_cases hps : pyStrip rest ≠ ""
        · rw [if_pos hps, if_pos ⟨by rw [hcond.1]; rfl, hps⟩]
        · rw [if_neg hps, if_neg (by rintro ⟨_, h2⟩; exact hps h2)]
      · rw [if_neg hcond]
        show pyStrip name
          = (if (!(rest.toList.contains '\n')) ∧ pyStrip rest ≠ ""
              then pyStrip rest else pyStrip name)
        cases hnlc : rest.toList.contains '\n'
        · have hre : rest.toList = [] := by
            by_contra hre
            exact hcond ⟨hnlc, hre⟩
          have hres : pyStrip rest = "" := by
            have hd : rest.toList = [] := hre
            rcases rest with ⟨d⟩
            have hd2 : d = [] := hd
            subst hd2
            rfl
          rw [if_neg (by rintro ⟨_, h2⟩; exact h2 hres)]
        · rw [if_neg (by
            rintro ⟨h2, _⟩
            exact absurd h2 (by simp))]

/-- C9 (counterexample to the claim as stated): for the AP name
`"ap_a\nb"` (no override, empty floor field) the claim's precedence list
yields the stripped remainder `"a\nb"`, but the source regex
`(?i)^ap_(.+)$` fails on it (Python `.` does not match the interior
newline), so the code resolves the floor to the whole name `"ap_a\nb"`. -/
theorem floor_resolution_counterexample :
    resolveFloor none none "ap_a\nb" = "ap_a\nb"
      ∧ floorSpecC9 none none "ap_a\nb" = "a\nb"
      ∧ resolveFloor none none "ap_a\nb" ≠ floorSpecC9 none none "ap_a\nb" := by
  refine ⟨rfl, rfl, by decide⟩

/-- C9 (amended): the resolved floor label follows the precedence — (1) the
per-AP-name override when one is configured (override values are non-empty
by construction of the override table), (2) the AP's own non-empty
(whitespace-stripped) floor field, (3) when the stripped AP name
case-insensitively starts with `"ap_"` followed by a non-blank remainder
containing no newline, that remainder stripped of surrounding whitespace,
(4) otherwise the stripped AP name, and (5) the literal `"unknown"` when the
stripped AP name is empty.  (The counterexample forces the newline-freeness
of the remainder and the stripping of the name.) -/
theorem floor_resolution_amended (ov ff : Option String) (name : String)
    (hov : ∀ v, ov = some v → v ≠ "") :
    resolveFloor ov ff name = floorSpecC9Amended ov ff name := by
  rcases ov with _ | v
  · show (if ("" : String) = ""
        then (if pyStrip (ff.getD "") = "" then floor_from_ap_name name
              else pyStrip (ff.getD ""))
        else "")
      = (if pyStrip (ff.getD "") ≠ "" then pyStrip (ff.getD "")
         else (if pyStrip name = "" then "unknown"
               else
                 match ciApRemainder (pyStrip name) with
                 | some rest =>
                     if (!(rest.toList.contains '\n')) ∧ pyStrip rest ≠ "" then
                       pyStrip rest
                     else pyStrip name
                 | none => pyStrip name))
    rw [if_pos rfl]
    by_cases hff : pyStrip (ff.getD "") = ""
    · rw [if_pos hff, if_neg (not_not_intro hff)]
      exact floor_from_ap_name_eq name
    · rw [if_neg hff, if_pos hff]
  · have hv := hov v rfl
    simp only [resolveFloor, floorSpecC9Amended, pyOrS, Option.getD_some]
    rw [if_neg hv]

/-- Witness for C9: a concrete resolution through the floor-field branch. -/
theorem floor_resolution_amended_witness :
    resolveFloor none (some " Attic ") "ap_kitchen"
      = floorSpecC9Amended none (some " Attic ") "ap_kitchen" :=
  floor_resolution_amended none (some " Attic ") "ap_kitchen"
    (fun _ hv => nomatch hv)

/-! ## C4 -/

/-- The code's RSSI banding equals the spec's interval banding. -/
theorem rssiPts_eq_spec (o : Option Int) : rssiPts o = rssiSpecPts o := by
  cases o with
  | none => rfl
  | some v =>
      show (if v ≥ 45 then (45:Int) else if v ≥ 35 then 30
          else if v ≥ 25 then 15 else 5) = _
      simp only [rssiSpecPts]
      split_ifs <;> omega

/-- The code's idle banding equals the spec's interval banding. -/
theorem idlePts_eq_spec (o : Option Int) : idlePts o = idleSpecPts o := by
  cases o with
  | none => rfl
  | some v =>
      show (if v ≤ 60 then (30:Int) else if v ≤ 300 then 15 else 0) = _
      simp only [idleSpecPts]
      split_ifs <;> omega

/-- The code's subtracted SSID penalty equals the spec's signed adjustment
(an empty SSID is falsy in the code, and also hint-free in the spec). -/
theorem ssidPen_eq_spec (o : Option String) : -(ssidPen o) = ssidSpecPts o := by
  cases o with
  | none => rfl
  | some ss =>
      show -(if ss ≠ "" ∧ ssidHint ss then (5:Int) else 0)
          = (if ssidHint ss then (-5:Int) else 0)
      by_cases hss : ss = ""
      · subst hss
        rw [if_neg (by simp), if_neg (by decide)]
        rfl
      · cases hh : ssidHint ss
        · simp
        · rw [if_pos ⟨hss, rfl⟩, if_pos rfl]

/-- The code's rate points coincide with the spec's. -/
theorem ratePts_eq_spec (t x : Option ℚ) : ratePts t x = rateSpecPts t x := by
  cases t <;> cases x <;> rfl

/-- The clamp written with two `if`s is the [0,100] clamp. -/
theorem clamp_eq_min_max (a : Int) :
    (if a < 0 then (0:Int) else if a > 100 then 100 else a)
      = min 100 (max 0 a) := by
  split_ifs <;> omega

/-- C4: the confidence score is exactly the spec formula — the clamp to
[0,100] of the sum of the RSSI band (≥45 → 45, [35,44] → 30, [25,34] → 15,
present below 25 → 5, absent → 0), the idle band (≤60 → 30, (60,300] → 15,
else 0), the rate bonus (20 when the max present rate is ≥ 50, else 10, when
any rate is present) and the −5 SSID hint penalty; hence it is always an
integer in [0,100], non-decreasing in the RSSI value and non-decreasing as
idle time decreases (for arbitrary, also out-of-range, field values). -/
theorem presence_confidence_properties :
    (∀ r : ConfRec, presence_confidence_for_record r = confSpecC4 r)
    ∧ (∀ r : ConfRec, 0 ≤ presence_confidence_for_record r
        ∧ presence_confidence_for_record r ≤ 100)
    ∧ (∀ (r : ConfRec) (x y : Int), x ≤ y →
        presence_confidence_for_record { r with rssi := some x }
          ≤ presence_confidence_for_record { r with rssi := some y })
    ∧ (∀ (r : ConfRec) (x y : Int), x ≤ y →
        presence_confidence_for_record { r with idle_s := some y }
          ≤ presence_confidence_for_record { r with idle_s := some x }) := by
  have hclamp : ∀ a b : Int, a ≤ b →
      (if a < 0 then (0:Int) else if a > 100 then 100 else a)
        ≤ (if b < 0 then (0:Int) else if b > 100 then 100 else b) := by
    intro a b h; split_ifs <;> omega
  refine ⟨?_, ?_, ?_, ?_⟩
  · intro r
    show (if (rssiPts r.rssi + idlePts r.idle_s + ratePts r.tx_mbps r.rx_mbps
          - ssidPen r.ssid) < 0 then (0:Int)
        else if (rssiPts r.rssi + idlePts r.idle_s
          + ratePts r.tx_mbps r.rx_mbps - ssidPen r.ssid) > 100 then 100
        else (rssiPts r.rssi + idlePts r.idle_s
          + ratePts r.tx_mbps r.rx_mbps - ssidPen r.ssid))
      = confSpecC4 r
    rw [clamp_eq_min_max, sub_eq_add_neg, ssidPen_eq_spec,
      rssiPts_eq_spec, idlePts_eq_spec, ratePts_eq_spec]
    rfl
  · intro r
    show 0 ≤ (if (rssiPts r.rssi + idlePts r.idle_s
          + ratePts r.tx_mbps r.rx_mbps - ssidPen r.ssid) < 0 then (0:Int)
        else if (rssiPts r.rssi + idlePts r.idle_s
          + ratePts r.tx_mbps r.rx_mbps - ssidPen r.ssid) > 100 then 100
        else (rssiPts r.rssi + idlePts r.idle_s
          + ratePts r.tx_mbps r.rx_mbps - ssidPen r.ssid))
      ∧ (if (rssiPts r.rssi + idlePts r.idle_s
          + ratePts r.tx_mbps r.rx_mbps - ssidPen r.ssid) < 0 then (0:Int)
        else if (rssiPts r.rssi + idlePts r.idle_s
          + ratePts r.tx_mbps r.rx_mbps - ssidPen r.ssid) > 100 then 100
        else (rssiPts r.rssi + idlePts r.idle_s
          + ratePts r.tx_mbps r.rx_mbps - ssidPen r.ssid)) ≤ 100
    constructor <;> split_ifs <;> omega
  · intro r x y h
    have hm : rssiPts (some x) ≤ rssiPts (some y) := by
      show (if x ≥ 45 then (45:Int) else if x ≥ 35 then 30
          else if x ≥ 25 then 15 else 5)
        ≤ (if y ≥ 45 then (45:Int) else if y ≥ 35 then 30
          else if y ≥ 25 then 15 else 5)
      split_ifs <;> omega
    show (if (rssiPts (some x) + idlePts r.idle_s
          + ratePts r.tx_mbps r.rx_mbps - ssidPen r.ssid) < 0 then (0:Int)
        else if (rssiPts (some x) + idlePts r.idle_s
          + ratePts r.tx_mbps r.rx_mbps - ssidPen r.ssid) > 100 then 100
        else (rssiPts (some x) + idlePts r.idle_s
          + ratePts r.tx_mbps r.rx_mbps - ssidPen r.ssid))
      ≤ (if (rssiPts (some y) + idlePts r.idle_s
          + ratePts r.tx_mbps r.rx_mbps - ssidPen r.ssid) < 0 then (0:Int)
        else if (rssiPts (some y) + idlePts r.idle_s
          + ratePts r.tx_mbps r.rx_mbps - ssidPen r.ssid) > 100 then 100
        else (rssiPts (some y) + idlePts r.idle_s
          + ratePts r.tx_mbps r.rx_mbps - ssidPen r.ssid))
    exact hclamp _ _ (by omega)
  · intro r x y h
    have hm : idlePts (some y) ≤ idlePts (some x) := by
      show (if y ≤ 60 then (30:Int) else if y ≤ 300 then 15 else 0)
        ≤ (if x ≤ 60 then (30:Int) else if x ≤ 300 then 15 else 0)
      split_ifs <;> omega
    show (if (rssiPts r.rssi + idlePts (some y)
          + ratePts r.tx_mbps r.rx_mbps - ssidPen r.ssid) < 0 then (0:Int)
        else if (rssiPts r.rssi + idlePts (some y)
          + ratePts r.tx_mbps r.rx_mbps - ssidPen r.ssid) > 100 then 100
        else (rssiPts r.rssi + idlePts (some y)
          + ratePts r.tx_mbps r.rx_mbps - ssidPen r.ssid))
      ≤ (if (rssiPts r.rssi + idlePts (some x)
          + ratePts r.tx_mbps r.rx_mbps - ssidPen r.ssid) < 0 then (0:Int)
        else if (rssiPts r.rssi + idlePts (some x)
          + ratePts r.tx_mbps r.rx_mbps - ssidPen r.ssid) > 100 then 100
        else (rssiPts r.rssi + idlePts (some x)
          + ratePts r.tx_mbps r.rx_mbps - ssidPen r.ssid))
    exact hclamp _ _ (by omega)

/-- Witness for C4: the spec equality, the bounds, and both monotonicity
facts at concrete inputs. -/
theorem presence_confidence_properties_witness :
    presence_confidence_for_record
        ⟨some 40, some 100, none, some 49, some "MyIoT"⟩
      = confSpecC4 ⟨some 40, some 100, none, some 49, some "MyIoT"⟩
    ∧ (0 ≤ presence_confidence_for_record
          ⟨some 40, some 100, none, some 49, some "MyIoT"⟩
        ∧ presence_confidence_for_record
          ⟨some 40, some 100, none, some 49, some "MyIoT"⟩ ≤ 100)
    ∧ presence_confidence_for_record
        ⟨some 10, some 100, none, some 49, some "MyIoT"⟩
      ≤ presence_confidence_for_record
        ⟨some 50, some 100, none, some 49, some "MyIoT"⟩
    ∧ presence_confidence_for_record
        ⟨some 40, some 400, none, some 49, some "MyIoT"⟩
      ≤ presence_confidence_for_record
        ⟨some 40, some 30, none, some 49, some "MyIoT"⟩ :=
  ⟨presence_confidence_properties.1 _,
   presence_confidence_properties.2.1 _,
   presence_confidence_properties.2.2.1
     ⟨some 40, some 100, none, some 49, some "MyIoT"⟩ 10 50 (by omega),
   presence_confidence_properties.2.2.2
     ⟨some 40, some 400, none, some 49, some "MyIoT"⟩ 30 400 (by omega)⟩

/-! ## C7 -/

/-- C7: on every cycle, `roam_count` increments by exactly 1 if and only if
the device is Home this cycle (it is observed) and its resolved AP name
differs from the prior cycle's AP name — the AP name carried in the state
and re-published while away, which exists exactly when the device has been
Home before; in particular it never changes on a cycle where the device is
not observed (Away or in the debounce window).  The hypotheses record the
two invariants of the pipeline: a stored previous AP name is non-empty, and
a merged record's AP name is non-empty (configured AP names are filtered to
be non-empty). -/
theorem roam_count_increment_iff (away_after now_ts : Int) (now_iso : String)
    (st : DevState) (obs : Option Rec)
    (hprev : ∀ p, st.prev_ap = some p → p ≠ "")
    (hap : ∀ r, obs = some r → r.ap_name ≠ "") :
    (((stepDevice away_after now_ts now_iso st obs).1).roam_count
        = st.roam_count + 1
      ↔ ∃ r p, obs = some r ∧ st.prev_ap = some p ∧ r.ap_name ≠ p)
    ∧ (obs = none →
        ((stepDevice away_after now_ts now_iso st obs).1).roam_count
          = st.roam_count) := by
  cases obs with
  | none =>
      constructor
      · constructor
        · intro h
          have h2 : ((stepDevice away_after now_ts now_iso st none).1).roam_count
              = st.roam_count := by
            simp only [stepDevice]
            split <;> rfl
          omega
        · rintro ⟨r, p, hr, _⟩
          exact absurd hr (by simp)
      · intro _
        simp only [stepDevice]
        split <;> rfl
  | some r =>
      have hr : ((stepDevice away_after now_ts now_iso st (some r)).1).roam_count
          = (if truthyChanged st.prev_ap r.ap_name then st.roam_count + 1
             else st.roam_count) := rfl
      constructor
      · rw [hr]
        cases hp : st.prev_ap with
        | none =>
            rw [if_neg (by simp [truthyChanged])]
            constructor
            · intro h; omega
            · rintro ⟨r2, p2, _, hp2, _⟩
              exact absurd hp2 (by simp)
        | some p =>
            have hpne := hprev p hp
            have hane := hap r rfl
            by_cases hd : r.ap_name = p
            · rw [if_neg (by
                simp only [truthyChanged, hp, Bool.and_eq_true, decide_eq_true_eq]
                rintro ⟨_, h2⟩
                exact h2 hd)]
              constructor
              · intro h; omega
              · rintro ⟨r2, p2, hr2, hp2, hne2⟩
                simp only [Option.some.injEq] at hr2 hp2
                subst hr2; subst hp2
                exact absurd hd hne2
            · rw [if_pos (by
                simp only [truthyChanged, hp, Bool.and_eq_true, decide_eq_true_eq]
                exact ⟨⟨hpne, hane⟩, hd⟩)]
              simp only [true_iff]
              exact ⟨r, p, rfl, rfl, hd⟩
      · intro h; exact absurd h (by simp)

/-- Witness for C7: a concrete roaming step (observed at `ap2` with stored
previous AP `ap1`) increments the roam counter. -/
theorem roam_count_increment_iff_witness :
    (((stepDevice 3 10 "t"
          { prev_home := some true, prev_ap := some "ap1",
            prev_ap_host := some "h1", prev_floor := some "f1",
            prev_floor_attr := none, prev_ip := none,
            last_floor_change := none, roam_count := 4, misses := 0,
            last_seen := 9, last_seen_iso := "s" }
          (some { mac := "aa:bb:cc:dd:ee:ff", ap_name := "ap2",
                  ap_host := "h2", floor := "f2", iface := "wifi1ap0",
                  band := "5", rssi := some 40, idle_s := none,
                  ip := none })).1).roam_count = 4 + 1
      ↔ ∃ r p,
          (some { mac := "aa:bb:cc:dd:ee:ff", ap_name := "ap2",
                  ap_host := "h2", floor := "f2", iface := "wifi1ap0",
                  band := "5", rssi := some 40, idle_s := none,
                  ip := none } : Option Rec) = some r
          ∧ (some "ap1" : Option String) = some p ∧ r.ap_name ≠ p)
    ∧ ((some { mac := "aa:bb:cc:dd:ee:ff", ap_name := "ap2",
               ap_host := "h2", floor := "f2", iface := "wifi1ap0",
               band := "5", rssi := some 40, idle_s := none,
               ip := none } : Option Rec) = none →
        (((stepDevice 3 10 "t"
          { prev_home := some true, prev_ap := some "ap1",
            prev_ap_host := some "h1", prev_floor := some "f1",
            prev_floor_attr := none, prev_ip := none,
            last_floor_change := none, roam_count := 4, misses := 0,
            last_seen := 9, last_seen_iso := "s" }
          (some { mac := "aa:bb:cc:dd:ee:ff", ap_name := "ap2",
                  ap_host := "h2", floor := "f2", iface := "wifi1ap0",
                  band := "5", rssi := some 40, idle_s := none,
                  ip := none })).1).roam_count = 4)) :=
  roam_count_increment_iff 3 10 "t"
    { prev_home := some true, prev_ap := some "ap1",
      prev_ap_host := some "h1", prev_floor := some "f1",
      prev_floor_attr := none, prev_ip := none,
      last_floor_change := none, roam_count := 4, misses := 0,
      last_seen := 9, last_seen_iso := "s" }
    (some { mac := "aa:bb:cc:dd:ee:ff", ap_name := "ap2",
            ap_host := "h2", floor := "f2", iface := "wifi1ap0",
            band := "5", rssi := some 40, idle_s := none, ip := none })
    (by intro p hp; simp only [Option.some.injEq] at hp; rw [← hp]; decide)
    (by intro r hr; simp only [Option.some.injEq] at hr; rw [← hr]; decide)

/-! ## C1 -/

/-- C1: with `away_after_misses = 3`, the per-device observation sequence
[seen, miss, miss, miss, miss, seen] from the initial (unknown) state
yields, for every tracked device (any merged record `r`, any cycle
timestamps): cycle 1 Home with an entry notice and published `misses = 0`;
cycles 2 and 3 no emission at all (neither state nor attributes published);
cycle 4 Away with an entry notice and `misses = 3`; cycle 5 Away re-emitted
with no notice and `misses = 4`; cycle 6 Home with an entry notice and
`misses = 0`. -/
theorem presence_cycle_sequence (r : Rec) (t1 t2 t3 t4 t5 t6 : Int)
    (i1 i2 i3 i4 i5 i6 : String) :
    ((runDevice 3 initDevState
      [(t1, i1, some r), (t2, i2, none), (t3, i3, none), (t4, i4, none),
       (t5, i5, none), (t6, i6, some r)]).2).map projEm
      = [some (true, 0, some .enteredHome), none, none,
         some (false, 3, some .wentAway), some (false, 4, none),
         some (true, 0, some .enteredHome)] := by
  have e1 : stepDevice 3 t1 i1 initDevState (some r)
      = (⟨some true, some r.ap_name, some r.ap_host, some r.floor, none,
          r.ip, none, 0, 0, t1, i1⟩,
         some ⟨true, ⟨some r.ap_name, some r.ap_host, some r.floor,
           some r.iface, some r.band, r.rssi, r.ip, 0, t1, i1, none, none,
           0⟩, some .enteredHome⟩) := rfl
  have e2 : stepDevice 3 t2 i2
      ⟨some true, some r.ap_name, some r.ap_host, some r.floor, none,
        r.ip, none, 0, 0, t1, i1⟩ none
      = (⟨some true, some r.ap_name, some r.ap_host, some r.floor, none,
          r.ip, none, 0, 1, t1, i1⟩, none) := rfl
  have e3 : stepDevice 3 t3 i3
      ⟨some true, some r.ap_name, some r.ap_host, some r.floor, none,
        r.ip, none, 0, 1, t1, i1⟩ none
      = (⟨some true, some r.ap_name, some r.ap_host, some r.floor, none,
          r.ip, none, 0, 2, t1, i1⟩, none) := rfl
  have e4 : stepDevice 3 t4 i4
      ⟨some true, some r.ap_name, some r.ap_host, some r.floor, none,
        r.ip, none, 0, 2, t1, i1⟩ none
      = (⟨some false, some r.ap_name, some r.ap_host, some r.floor, none,
          none, none, 0, 3, t1, i1⟩,
         some ⟨false, ⟨some r.ap_name, some r.ap_host, some r.floor,
           none, none, none, none, 3, t1, i1, none, none, 0⟩,
           some .wentAway⟩) := rfl
  have e5 : stepDevice 3 t5 i5
      ⟨some false, some r.ap_name, some r.ap_host, some r.floor, none,
        none, none, 0, 3, t1, i1⟩ none
      = (⟨some false, some r.ap_name, some r.ap_host, some r.floor, none,
          none, none, 0, 4, t1, i1⟩,
         some ⟨false, ⟨some r.ap_name, some r.ap_host, some r.floor,
           none, none, none, none, 4, t1, i1, none, none, 0⟩,
           none⟩) := rfl
  have hT : ∀ s : String, truthyChanged (some s) s = false := by
    intro s; simp [truthyChanged]
  have e6 : stepDevice 3 t6 i6
      ⟨some false, some r.ap_name, some r.ap_host, some r.floor, none,
        none, none, 0, 4, t1, i1⟩ (some r)
      = (⟨some true, some r.ap_name, some r.ap_host, some r.floor, none,
          r.ip, none, 0, 0, t6, i6⟩,
         some ⟨true, ⟨some r.ap_name, some r.ap_host, some r.floor,
           some r.iface, some r.band, r.rssi, r.ip, 0, t6, i6, none, none,
           0⟩, some .enteredHome⟩) := by
    simp only [stepDevice, hT]
    rfl
  simp only [runDevice, e1, e2, e3, e4, e5, e6, List.map, projEm]

/-! ## C8 -/

/-- Inserting into a descending-sorted list permutes the cons. -/
theorem insertByTsDesc_perm (e : SeenEntry) (l : List SeenEntry) :
    (insertByTsDesc e l).Perm (e :: l) := by
  induction l with
  | nil => exact List.Perm.refl _
  | cons x xs ih =>
      unfold insertByTsDesc
      split_ifs with h
      · exact List.Perm.refl _
      · exact (ih.cons x).trans (List.Perm.swap e x xs)

theorem sortByTsDesc_perm (l : List SeenEntry) : (sortByTsDesc l).Perm l := by
  induction l with
  | nil => exact List.Perm.refl _
  | cons x xs ih =>
      exact (insertByTsDesc_perm x (sortByTsDesc xs)).trans (ih.cons x)

theorem pairwise_insertByTsDesc (e : SeenEntry) (l : List SeenEntry)
    (h : l.Pairwise (fun a b => b.last_seen_ts ≤ a.last_seen_ts)) :
    (insertByTsDesc e l).Pairwise
      (fun a b => b.last_seen_ts ≤ a.last_seen_ts) := by
  induction l with
  | nil => simp [insertByTsDesc]
  | cons x xs ih =>
      rw [List.pairwise_cons] at h
      obtain ⟨hx, hxs⟩ := h
      unfold insertByTsDesc
      split_ifs with hle
      · rw [List.pairwise_cons]
        refine ⟨?_, ?_⟩
        · intro b hb
          rcases List.mem_cons.mp hb with hb | hb
          · subst hb; exact hle
          · exact le_trans (hx b hb) hle
        · rw [List.pairwise_cons]; exact ⟨hx, hxs⟩
      · rw [List.pairwise_cons]
        refine ⟨?_, ih hxs⟩
        intro b hb
        have hb2 := (insertByTsDesc_perm e xs).mem_iff.mp hb
        rcases List.mem_cons.mp hb2 with hb3 | hb3
        · subst hb3; omega
        · exact hx b hb3

theorem pairwise_sortByTsDesc (l : List SeenEntry) :
    (sortByTsDesc l).Pairwise (fun a b => b.last_seen_ts ≤ a.last_seen_ts) := by
  induction l with
  | nil => simp [sortByTsDesc]
  | cons x xs ih => exact pairwise_insertByTsDesc x _ ih

theorem dictUpsert_append {α : Type} (k : String) (v : α)
    (acc : List (String × α)) (hk : ∀ p ∈ acc, p.1 ≠ k) :
    dictUpsert k v acc = acc ++ [(k, v)] := by
  induction acc with
  | nil => rfl
  | cons p ps ih =>
      obtain ⟨k2, v2⟩ := p
      unfold dictUpsert
      rw [if_neg (hk (k2, v2) (by simp))]
      rw [ih (fun q hq => hk q (by simp [hq]))]
      simp

theorem dictUpsert_length {α : Type} (k : String) (v : α)
    (acc : List (String × α)) :
    (dictUpsert k v acc).length ≤ acc.length + 1 := by
  induction acc with
  | nil => simp [dictUpsert]
  | cons p ps ih =>
      obtain ⟨k2, v2⟩ := p
      unfold dictUpsert
      split_ifs <;> simp <;> omega

theorem foldl_upsert_length (l : List SeenEntry) :
    ∀ acc : List (String × SeenEntry),
      ((l.foldl (fun acc it => dictUpsert (lowerAscii it.mac) it acc)
          acc)).length ≤ acc.length + l.length := by
  induction l with
  | nil => intro acc; simp
  | cons e es ih =>
      intro acc
      rw [List.foldl_cons]
      have h1 := ih (dictUpsert (lowerAscii e.mac) e acc)
      have h2 := dictUpsert_length (lowerAscii e.mac) e acc
      simp only [List.length_cons]
      omega

theorem foldl_upsert_eq (l : List SeenEntry) :
    ∀ acc : List (String × SeenEntry),
      (∀ e ∈ l, ∀ p ∈ acc, p.1 ≠ lowerAscii e.mac) →
      l.Pairwise (fun a b => lowerAscii a.mac ≠ lowerAscii b.mac) →
      l.foldl (fun acc it => dictUpsert (lowerAscii it.mac) it acc) acc
        = acc ++ l.map (fun e => (lowerAscii e.mac, e)) := by
  induction l with
  | nil => intro acc _ _; simp
  | cons e es ih =>
      intro acc hclash hpw
      rw [List.pairwise_cons] at hpw
      rw [List.foldl_cons,
        dictUpsert_append _ _ acc (fun p hp => hclash e (by simp) p hp),
        ih (acc ++ [(lowerAscii e.mac, e)]) ?_ hpw.2]
      · simp
      · intro e2 he2 p hp
        rcases List.mem_append.mp hp with hp | hp
        · exact hclash e2 (by simp [he2]) p hp
        · simp only [List.mem_singleton] at hp
          subst hp
          show lowerAscii e.mac ≠ lowerAscii e2.mac
          exact hpw.1 e2 he2

/-- C8: after a trim pass with a configured maximum `max > 0`, the learning
store holds at most `max` entries; and when more than `max` entries with
pairwise-distinct `last_seen_ts` (and, store keys being MACs,
pairwise-distinct lowercased MACs) were present, exactly `max` entries
remain, all drawn from the original store, and every remaining entry has a
strictly greater `last_seen_ts` than every evicted one — i.e. exactly the
`max` most recent entries remain. -/
theorem trim_seen_bounded_most_recent (max_entries : Int)
    (hmax : 0 < max_entries) :
    (∀ seen : List SeenEntry,
        (trim_seen seen max_entries).length ≤ max_entries.toNat)
    ∧ (∀ seen : List SeenEntry,
        seen.Pairwise (fun a b => lowerAscii a.mac ≠ lowerAscii b.mac) →
        seen.Pairwise (fun a b => a.last_seen_ts ≠ b.last_seen_ts) →
        max_entries.toNat < seen.length →
        ((trim_seen seen max_entries).map Prod.snd).length = max_entries.toNat
        ∧ (∀ e ∈ (trim_seen seen max_entries).map Prod.snd, e ∈ seen)
        ∧ (∀ a ∈ (trim_seen seen max_entries).map Prod.snd,
            ∀ b ∈ seen, b ∉ (trim_seen seen max_entries).map Prod.snd →
              b.last_seen_ts < a.last_seen_ts)) := by
  have hnot : ¬ max_entries ≤ 0 := by omega
  constructor
  · intro seen
    unfold trim_seen
    rw [if_neg hnot]
    have h1 := foldl_upsert_length ((sortByTsDesc seen).take max_entries.toNat) []
    have h2 : ((sortByTsDesc seen).take max_entries.toNat).length
        ≤ max_entries.toNat := by
      simp [List.length_take]
    simp only [List.length_nil] at h1
    omega
  · intro seen hmac hts hlen
    have hperm := sortByTsDesc_perm seen
    have hlenL : (sortByTsDesc seen).length = seen.length := hperm.length_eq
    have hmacL : (sortByTsDesc seen).Pairwise
        (fun a b => lowerAscii a.mac ≠ lowerAscii b.mac) :=
      (hperm.pairwise_iff (fun h => h.symm)).mpr hmac
    have htsL : (sortByTsDesc seen).Pairwise
        (fun a b => a.last_seen_ts ≠ b.last_seen_ts) :=
      (hperm.pairwise_iff (fun h => h.symm)).mpr hts
    have hsorted := pairwise_sortByTsDesc seen
    have hkept : trim_seen seen max_entries
        = ((sortByTsDesc seen).take max_entries.toNat).map
            (fun e => (lowerAscii e.mac, e)) := by
      unfold trim_seen
      rw [if_neg hnot]
      rw [foldl_upsert_eq _ [] (by simp)
        (hmacL.sublist (List.take_sublist _ _))]
      simp
    have hsnd : (trim_seen seen max_entries).map Prod.snd
        = (sortByTsDesc seen).take max_entries.toNat := by
      rw [hkept, List.map_map]
      rw [show (Prod.snd ∘ fun e : SeenEntry => (lowerAscii e.mac, e)) = id
        from by funext e; rfl]
      rw [List.map_id]
    rw [hsnd]
    have hsplit := List.take_append_drop max_entries.toNat (sortByTsDesc seen)
    refine ⟨?_, ?_, ?_⟩
    · simp [List.length_take]
      omega
    · intro e he
      exact hperm.mem_iff.mp
        ((List.take_sublist _ _).subset he)
    · intro a ha b hb hbn
      have hbL : b ∈ sortByTsDesc seen := hperm.mem_iff.mpr hb
      have hbdrop : b ∈ (sortByTsDesc seen).drop max_entries.toNat := by
        rcases (List.mem_append.mp (by rw [hsplit]; exact hbL)) with h | h
        · exact absurd h hbn
        · exact h
      have hsorted2 : ((sortByTsDesc seen).take max_entries.toNat
          ++ (sortByTsDesc seen).drop max_entries.toNat).Pairwise
            (fun a b => b.last_seen_ts ≤ a.last_seen_ts) := by
        rw [hsplit]; exact hsorted
      have hts2 : ((sortByTsDesc seen).take max_entries.toNat
          ++ (sortByTsDesc seen).drop max_entries.toNat).Pairwise
            (fun a b => a.last_seen_ts ≠ b.last_seen_ts) := by
        rw [hsplit]; exact htsL
      have hle := (List.pairwise_append.mp hsorted2).2.2 a ha b hbdrop
      have hne := (List.pairwise_append.mp hts2).2.2 a ha b hbdrop
      omega

/-- Witness for C8: trimming a three-entry store with distinct timestamps to
two entries keeps exactly the two most recent. -/
theorem trim_seen_bounded_most_recent_witness :
    (trim_seen [⟨"aa", 5⟩, ⟨"bb", 9⟩, ⟨"cc", 7⟩] 2).length ≤ (2 : Int).toNat
    ∧ (((trim_seen [⟨"aa", 5⟩, ⟨"bb", 9⟩, ⟨"cc", 7⟩] 2).map
            Prod.snd).length = (2 : Int).toNat
        ∧ (∀ e ∈ (trim_seen [⟨"aa", 5⟩, ⟨"bb", 9⟩, ⟨"cc", 7⟩] 2).map
              Prod.snd,
            e ∈ ([⟨"aa", 5⟩, ⟨"bb", 9⟩, ⟨"cc", 7⟩] : List SeenEntry))
        ∧ (∀ a ∈ (trim_seen [⟨"aa", 5⟩, ⟨"bb", 9⟩, ⟨"cc", 7⟩] 2).map
              Prod.snd,
            ∀ b ∈ ([⟨"aa", 5⟩, ⟨"bb", 9⟩, ⟨"cc", 7⟩] : List SeenEntry),
              b ∉ (trim_seen [⟨"aa", 5⟩, ⟨"bb", 9⟩, ⟨"cc", 7⟩] 2).map
                Prod.snd →
              b.last_seen_ts < a.last_seen_ts)) :=
  ⟨(trim_seen_bounded_most_recent 2 (by decide)).1 _,
   (trim_seen_bounded_most_recent 2 (by decide)).2
     [⟨"aa", 5⟩, ⟨"bb", 9⟩, ⟨"cc", 7⟩] (by decide) (by decide) (by decide)⟩
